import Mathlib

/-!
# Verification of the ChronOS timeline week-indexing and event model

A shallow embedding of the date/week arithmetic, event-to-cell resolution
and settings logic of `src/main.ts` (an Obsidian "life in weeks" plugin),
with theorems checking the natural-language specification against it.

Calendar dates are modelled as integer day numbers (days since 1970-01-01,
the epoch of JavaScript `Date`), with local midnight throughout: every
`setHours(0,0,0,0)`-normalised date is a whole number of days, date
differences divided by 86400000 ms are exact day differences, and
`getDay()` is day-number arithmetic modulo 7 (day 0, 1970-01-01, was a
Thursday, so `getDay` = 4 there).  Conversion between day numbers and
civil `(year, month, day)` triples uses the standard civil-calendar
algorithms (proleptic Gregorian, as JavaScript `Date` uses); both
directions are executable.  JavaScript strings are modelled as `List Char`
so that all string operations reduce in the kernel.
-/

/-- Days from the epoch 1970-01-01 for a civil date (month `m` is 1..12 as
in the civil calendar; JavaScript's 0-based `Date` months are translated
at each use site).  The formula is linear in `d`, so an out-of-range day
of month overflows into the following months exactly as JavaScript's
`Date.setDate` / `new Date(y, m, d)` normalisation does. -/
def daysFromCivil (y m d : Int) : Int :=
  let y' := if m ≤ 2 then y - 1 else y
  let era := y' / 400
  let yoe := y' % 400
  let mp := (m + 9) % 12
  let doy := (153 * mp + 2) / 5 + d - 1
  let doe := yoe * 365 + yoe / 4 - yoe / 100 + doy
  era * 146097 + doe - 719468

/-- Civil date `(year, month 1..12, day 1..31)` of an epoch day number
(inverse of `daysFromCivil` on valid dates). -/
def civilFromDays (z : Int) : Int × Int × Int :=
  let days := z + 719468
  let era := days / 146097
  let doe := days % 146097
  let yoe := (doe - doe / 1460 + doe / 36524 - doe / 146096) / 365
  let y := yoe + era * 400
  let doy := doe - (365 * yoe + yoe / 4 - yoe / 100)
  let mp := (5 * doy + 2) / 153
  let d := doy - (153 * mp + 2) / 5 + 1
  let m := if mp < 10 then mp + 3 else mp - 9
  (if m ≤ 2 then y + 1 else y, m, d)

/-- `date.getFullYear()` of a day number. -/
def yearOf (t : Int) : Int := (civilFromDays t).1

/-- `date.getDay()` of a day number: 0 (Sunday) .. 6 (Saturday). -/
def jsGetDay (t : Int) : Int := (t + 4) % 7

/-- A parsed `YYYY-W##` week key: the year and week-number components. -/
structure WeekKey where
  year : Int
  week : Int
deriving DecidableEq, Repr

/-- The `d.setDate(d.getDate() + 4 - (d.getDay() || 7))` step of
`getISOWeekNumber`: shift a date to the Thursday of its ISO week. -/
def isoShiftedThursday (t : Int) : Int :=
  t + 4 - (if jsGetDay t = 0 then 7 else jsGetDay t)

/-- `getISOWeekNumber` (src/main.ts:460): shift the date to its week's
Thursday, then `Math.ceil(((d - yearStart) / 86400000 + 1) / 7)` where
`yearStart` is January 1 of the shifted date's year.  `Math.ceil (x/7)`
for the integer numerator `x = diff + 1` is `(x + 6) / 7` in floor
division. -/
def getISOWeekNumber (t : Int) : Int :=
  let d := isoShiftedThursday t
  let yearStart := daysFromCivil (yearOf d) 1 1
  (d - yearStart + 1 + 6) / 7

/-- `getWeekKeyFromDate` (src/main.ts:479): the key's year component is
`date.getFullYear()` of the input date and the week component is
`getISOWeekNumber date` (rendered as `` `${year}-W${pad2 weekNum}` `` in
the source; the two numeric components carry all of the key's data). -/
def getWeekKeyFromDate (t : Int) : WeekKey :=
  ⟨yearOf t, getISOWeekNumber t⟩

/-- `convertWeekToDate` (src/main.ts:757) without its string parsing and
formatting: from the parsed `(year, week)` of a week key, start at
January 1, read its `getDay()`, and add
`(week-1)*7 + (if dayOfWeek ≤ 4 then 1 - dayOfWeek else 8 - dayOfWeek)`
days, producing the Monday of that week. -/
def convertWeekToDate (year week : Int) : Int :=
  let date := daysFromCivil year 1 1
  let dayOfWeek := jsGetDay date
  let daysToAdd :=
    (week - 1) * 7 +
      (if dayOfWeek ≤ 4 then 1 - dayOfWeek else 8 - dayOfWeek)
  date + daysToAdd

/-- `getWeekDateRange` (src/main.ts:657) without its string parsing and
`"Mon D"` formatting: the first and last day numbers of the displayed
range.  The source sets `firstDayOfWeek = new Date(year, 0, 1)` and then
`firstDayOfWeek.setDate(1 + (week-1)*7 - (dayOffset-1))` where
`dayOffset = getDay() || 7`; the last day is 6 days later. -/
def getWeekDateRange (year week : Int) : Int × Int :=
  let firstDayOfWeek := daysFromCivil year 1 1
  let dayOffset := if jsGetDay firstDayOfWeek = 0 then 7 else jsGetDay firstDayOfWeek
  let dayToAdd := 1 + (week - 1) * 7 - (dayOffset - 1)
  let first := daysFromCivil year 1 dayToAdd
  (first, first + 6)

/-- The body of `getWeekKeysBetweenDates`' while loop (src/main.ts:507):
advance `currentDate` by 7 days while it is strictly before the end date,
break once it passes the end date, and append each new week key not yet
in the list.  The loop advances by 7 days every iteration, so
`(endDate - currentDate).toNat` iterations always suffice; the `fuel`
argument only bounds the recursion and never cuts the walk short. -/
def weekWalk : Nat → Int → Int → List WeekKey → List WeekKey
  | 0, _, _, weekKeys => weekKeys
  | fuel + 1, currentDate, endDate, weekKeys =>
    if currentDate < endDate then
      let next := currentDate + 7
      if next > endDate then weekKeys
      else
        let key := getWeekKeyFromDate next
        weekWalk fuel next endDate
          (if key ∈ weekKeys then weekKeys else weekKeys ++ [key])
    else weekKeys

/-- `getWeekKeysBetweenDates` (src/main.ts:491).  As in the source,
`currentDate` is initialised from `startDate` *before* the swap that
orders the two arguments, and after the swap the loop compares
`currentDate` against the (possibly swapped) `endDate` variable, which
holds the larger of the two inputs. -/
def getWeekKeysBetweenDates (startDate endDate : Int) : List WeekKey :=
  let currentDate := startDate
  let endDate' := if startDate > endDate then startDate else endDate
  let weekKeys := [getWeekKeyFromDate currentDate]
  let weekKeys := weekWalk (endDate' - currentDate).toNat currentDate endDate' weekKeys
  let endWeekKey := getWeekKeyFromDate endDate'
  if endWeekKey ∈ weekKeys then weekKeys else weekKeys ++ [endWeekKey]

/-- The fill-related slice of `ChronosSettings` used by `checkAndAutoFill`
(src/main.ts:325): whether auto-fill is on, the configured weekday
(0 = Sunday .. 6 = Saturday, Monday by default), and the list of filled
week keys. -/
structure AutoFillSettings where
  enableAutoFill : Bool
  autoFillDay : Int
  filledWeeks : List WeekKey
deriving DecidableEq, Repr

/-- `checkAndAutoFill` (src/main.ts:325).  `now` is the current date as a
day number; the source reads it from `new Date()`.  Returns the source's
boolean result together with the settings after the call (the source
mutates `this.settings.filledWeeks` in place and persists it through an
external collaborator). -/
def checkAndAutoFill (settings : AutoFillSettings) (now : Int) :
    Bool × AutoFillSettings :=
  if !settings.enableAutoFill then (false, settings)
  else
    let currentDay := jsGetDay now
    if currentDay ≠ settings.autoFillDay then (false, settings)
    else
      let currentWeekKey := getWeekKeyFromDate now
      if currentWeekKey ∈ settings.filledWeeks then (false, settings)
      else
        (true, { settings with filledWeeks := settings.filledWeeks ++ [currentWeekKey] })

/-- `zoomIn` (src/main.ts:1530): `Math.min(3.0, zoomLevel + 0.1)`.  The
source's IEEE doubles are modelled as exact rationals; the clamping
property proved about them is insensitive to rounding because `min`,
`max` and rounding are all monotone. -/
def zoomIn (zoomLevel : ℚ) : ℚ := min 3 (zoomLevel + 1 / 10)

/-- `zoomOut` (src/main.ts:1542): `Math.max(0.1, zoomLevel - 0.1)`. -/
def zoomOut (zoomLevel : ℚ) : ℚ := max (1 / 10) (zoomLevel - 1 / 10)

/-- The zoom level written by `fitToScreen` (src/main.ts:1610):
`Math.max(0.1, Math.min(3.0, zoomRatio * 0.95))`, where `zoomRatio` is
computed from layout measurements (an external collaborator here, so the
ratio is an arbitrary input). -/
def fitToScreenZoom (zoomRatio : ℚ) : ℚ :=
  max (1 / 10) (min 3 (zoomRatio * (95 / 100)))

/-! ## JavaScript string operations on `List Char` -/

/-- `String.prototype.split(":")` for a single-character separator, on the
character-list model of JavaScript strings. -/
def splitOnChar (sep : Char) : List Char → List (List Char)
  | [] => [[]]
  | c :: cs =>
    if c = sep then [] :: splitOnChar sep cs
    else
      match splitOnChar sep cs with
      | [] => [[c]]
      | group :: groups => (c :: group) :: groups

/-- `String.prototype.split("-W")`: split on the two-character separator
`-W`, scanning left to right without overlap, as week keys are split in
the source. -/
def splitOnDashW : List Char → List (List Char)
  | [] => [[]]
  | '-' :: 'W' :: cs => [] :: splitOnDashW cs
  | c :: cs =>
    match splitOnDashW cs with
    | [] => [[c]]
    | group :: groups => (c :: group) :: groups

/-- `String.prototype.startsWith`. -/
def strStartsWith : List Char → List Char → Bool
  | _, [] => true
  | [], _ :: _ => false
  | c :: cs, p :: ps => c = p && strStartsWith cs ps

/-- The digit-run part of JavaScript `parseInt`: an optional sign followed
by leading decimal digits, ignoring everything after them; `none` models
`NaN` (no leading digit).  Sufficient for the strings `parseInt` receives
in the event-matching code (fields split out of week keys). -/
def parseIntJS (s : List Char) : Option Int :=
  let digits : List Char → Option Nat := fun cs =>
    match cs.takeWhile (·.isDigit) with
    | [] => none
    | ds => some (ds.foldl (fun n c => n * 10 + (c.toNat - '0'.toNat)) 0)
  match s with
  | '-' :: rest => (digits rest).map (fun n => -(n : Int))
  | '+' :: rest => (digits rest).map (fun n => (n : Int))
  | _ => (digits s).map (fun n => (n : Int))

/-! ## Event matching and styling (`applyEventStyling`, src/main.ts:1965) -/

/-- The range test of `applyEventStyling` (src/main.ts:2011): whether the
cell's `(year, week)` lies inside the record's range, comparing
`(year, week)` pairs lexicographically with inclusive endpoints. -/
def isInRange (cellYear cellWeek startYear startWeek endYear endWeek : Int) : Bool :=
  (cellYear > startYear || (cellYear == startYear && cellWeek ≥ startWeek)) &&
    (cellYear < endYear || (cellYear == endYear && cellWeek ≤ endWeek))

/-- The same comparisons on `parseInt` results: any `NaN` (`none`) makes
every JavaScript comparison, and hence the conjunction, false. -/
def isInRangeParsed (cellYear cellWeek startYear startWeek endYear endWeek : Option Int) : Bool :=
  match cellYear, cellWeek, startYear, startWeek, endYear, endWeek with
  | some cy, some cw, some sy, some sw, some ey, some ew => isInRange cy cw sy sw ey ew
  | _, _, _, _, _, _ => false

/-- The single-event lookup of `applyEventStyle` (src/main.ts:1972):
`events.find((e) => e.startsWith(`weekKey:`) && !e.includes(":", 10))`. -/
def findSingleEvent (events : List (List Char)) (weekKey : List Char) :
    Option (List Char) :=
  events.find? fun e =>
    strStartsWith e (weekKey ++ [':']) && !((e.drop 10).contains ':')

/-- The range-event filter of `applyEventStyle` (src/main.ts:1987): at
least three colon-separated fields, the first two containing `W`. -/
def rangeEventsOf (events : List (List Char)) : List (List Char) :=
  events.filter fun e =>
    let parts := splitOnChar ':' e
    decide (parts.length ≥ 3) && (parts.getD 0 []).contains 'W' &&
      (parts.getD 1 []).contains 'W'

/-- One iteration of the range-event loop (src/main.ts:1994): parse the
record's start and end keys and the cell key with `split("-W")` and
`parseInt`, and on an in-range hit produce the applied styling
`(backgroundColor, title line)`; `none` means this record is skipped. -/
def rangeEventStyle (defaultColor defaultDesc weekKey rangeEvent : List Char) :
    Option (List Char × List Char) :=
  let parts := splitOnChar ':' rangeEvent
  let startWeekKey := parts.getD 0 []
  let endWeekKey := parts.getD 1 []
  let description := parts.getD 2 []
  if startWeekKey = [] ∨ endWeekKey = [] then none
  else
    let startYear := parseIntJS ((splitOnDashW startWeekKey).getD 0 [])
    let startWeek := parseIntJS ((splitOnDashW startWeekKey).getD 1 [])
    let endYear := parseIntJS ((splitOnDashW endWeekKey).getD 0 [])
    let endWeek := parseIntJS ((splitOnDashW endWeekKey).getD 1 [])
    let cellYear := parseIntJS ((splitOnDashW weekKey).getD 0 [])
    let cellWeek := parseIntJS ((splitOnDashW weekKey).getD 1 [])
    if isInRangeParsed cellYear cellWeek startYear startWeek endYear endWeek then
      let eventDesc := if description = [] then defaultDesc else description
      some (defaultColor,
        eventDesc ++ (" (".toList ++ startWeekKey ++ " to ".toList ++ endWeekKey ++ ")".toList))
    else none

/-- The `applyEventStyle` helper of `applyEventStyling`: try a single
(exact-key) event first, then the range events in collection order.  The
result is the styling written to the cell — the category's colour and the
title line prepended to the cell's tooltip — or `none` when the category
has no matching record (the helper's `false` return). -/
def applyEventStyle (events : List (List Char)) (defaultColor defaultDesc weekKey : List Char) :
    Option (List Char × List Char) :=
  match findSingleEvent events weekKey with
  | some e =>
    let description :=
      if (splitOnChar ':' e).getD 1 [] = [] then defaultDesc
      else (splitOnChar ':' e).getD 1 []
    some (defaultColor, description)
  | none =>
    (rangeEventsOf events).findSome? (rangeEventStyle defaultColor defaultDesc weekKey)

/-- A user-defined event category: `CustomEventType` of the source. -/
structure CustomEventType where
  name : List Char
  color : List Char
deriving DecidableEq, Repr

/-- The event-related slice of `ChronosSettings` read by
`applyEventStyling`: the four built-in collections, the custom category
records, and the per-custom-category collections (`customEvents` is a
string-keyed object, modelled as an association list in insertion
order, which is the order `Object.entries` yields). -/
structure EventSettings where
  greenEvents : List (List Char)
  blueEvents : List (List Char)
  pinkEvents : List (List Char)
  purpleEvents : List (List Char)
  customEventTypes : List CustomEventType
  customEvents : List (List Char × List (List Char))
deriving DecidableEq, Repr

/-- All stylings `applyEventStyling` (src/main.ts:2029) writes to a cell,
in application order: the built-in categories are probed in the fixed
order green (Major Life), blue (Travel), pink (Relationship), purple
(Education/Career), the first match short-circuiting the rest; only when
none matched are the custom categories probed, and that loop ignores
`applyEventStyle`'s return value, so every matching custom category
contributes a write.  The cell's final background colour is the last
write's colour. -/
def cellWrites (settings : EventSettings) (weekKey : List Char) :
    List (List Char × List Char) :=
  match applyEventStyle settings.greenEvents "#4CAF50".toList "Major Life Event".toList weekKey with
  | some w => [w]
  | none =>
    match applyEventStyle settings.blueEvents "#2196F3".toList "Travel".toList weekKey with
    | some w => [w]
    | none =>
      match applyEventStyle settings.pinkEvents "#E91E63".toList "Relationship".toList weekKey with
      | some w => [w]
      | none =>
        match applyEventStyle settings.purpleEvents "#9C27B0".toList "Education/Career".toList weekKey with
        | some w => [w]
        | none =>
          settings.customEvents.flatMap fun entry =>
            match settings.customEventTypes.find? (fun t => t.name == entry.1) with
            | some customType =>
              if entry.2 ≠ [] then
                (applyEventStyle entry.2 customType.color entry.1 weekKey).toList
              else []
            | none => []

/-! ## Custom category editing (`showEditTypeModal`, src/main.ts:2474) -/

/-- The four built-in category names, as listed in the source's
`builtInTypes` table (src/main.ts:2360); they are fixed records, kept
outside `customEventTypes`. -/
def builtInTypeNames : List (List Char) :=
  ["Major Life".toList, "Travel".toList, "Relationship".toList,
    "Education/Career".toList]

/-- Look a key up in a string-keyed object, modelled as an association
list. -/
def lookupAssoc (entries : List (List Char × List (List Char))) (key : List Char) :
    Option (List (List Char)) :=
  (entries.find? fun entry => entry.1 == key).map (·.2)

/-- `object[key] = value`: overwrite the key's entry in place if present,
otherwise append it (JavaScript string-keyed objects keep insertion
order). -/
def setAssoc (entries : List (List Char × List (List Char))) (key : List Char)
    (value : List (List Char)) : List (List Char × List (List Char)) :=
  match entries with
  | [] => [(key, value)]
  | entry :: rest =>
    if entry.1 = key then (key, value) :: rest
    else entry :: setAssoc rest key value

/-- `delete object[key]`. -/
def eraseAssoc (entries : List (List Char × List (List Char))) (key : List Char) :
    List (List Char × List (List Char)) :=
  entries.filter fun entry => entry.1 ≠ key

/-- The category state touched by the edit-type modal: the custom
category records and the per-custom-category event collections. -/
structure EventTypesState where
  customEventTypes : List CustomEventType
  customEvents : List (List Char × List (List Char))
deriving DecidableEq, Repr

/-- The save handler of `showEditTypeModal` (src/main.ts:2474), editing
the category named `oldName` to `newName`/`newColor`.  The boolean is
whether the handler got past its validation (an empty name or a name
equal to another *custom* category's is refused with a notice and no
state change); on success the events collection is moved under the new
key and the category record is replaced in place. -/
def saveEditedType (st : EventTypesState) (oldName newName newColor : List Char) :
    Bool × EventTypesState :=
  if newName = [] then (false, st)
  else if newName ≠ oldName ∧ st.customEventTypes.any (fun t => t.name == newName) then
    (false, st)
  else
    let customEvents :=
      if newName ≠ oldName then
        eraseAssoc (setAssoc st.customEvents newName ((lookupAssoc st.customEvents oldName).getD [])) oldName
      else st.customEvents
    let customEventTypes :=
      match st.customEventTypes.findIdx? (fun t => t.name == oldName) with
      | some typeIndex => st.customEventTypes.set typeIndex ⟨newName, newColor⟩
      | none => st.customEventTypes
    (true, ⟨customEventTypes, customEvents⟩)

/-! ## Month markers (`calculateMonthMarkers`, src/main.ts:560)

The month-marker loop walks day by day from the birthday to
birthday-plus-`totalYears`.  Here the walking date is kept as the civil
triple JavaScript's `Date` presents (`getFullYear`, 0-based `getMonth`,
`getDate`), advanced by the same normalisation `setDate(getDate() + 1)`
performs, while the elapsed-day counter that the source obtains from
`getTime` differences is carried alongside. -/

/-- A calendar date as JavaScript `Date` presents it: `getFullYear()`,
0-based `getMonth()` (0 = January), 1-based `getDate()`. -/
structure CivilDate where
  year : Int
  month : Nat
  day : Nat
deriving DecidableEq, Repr

/-- Gregorian leap-year rule (as `Date`'s calendar uses). -/
def isLeapYear (y : Int) : Bool :=
  (y % 4 == 0 && y % 100 != 0) || y % 400 == 0

/-- Days in a (0-based) month of a year. -/
def daysInMonth (y : Int) : Nat → Nat
  | 1 => if isLeapYear y then 29 else 28
  | 3 | 5 | 8 | 10 => 30
  | _ => 31

/-- `currentDate.setDate(currentDate.getDate() + 1)`: step to the next
calendar day, rolling over months and years. -/
def nextDay (c : CivilDate) : CivilDate :=
  if c.day < daysInMonth c.year c.month then ⟨c.year, c.month, c.day + 1⟩
  else if c.month < 11 then ⟨c.year, c.month + 1, 1⟩
  else ⟨c.year + 1, 0, 1⟩

/-- `MONTH_NAMES` (src/main.ts:179). -/
def MONTH_NAMES : List String :=
  ["Jan", "Feb", "Mar", "Apr", "May", "Jun", "Jul", "Aug", "Sep", "Oct",
    "Nov", "Dec"]

/-- A month marker.  The source's `label`/`fullLabel` strings are the
renderings `MONTH_NAMES[month]` and `` `${MONTH_NAMES[month]} ${year}` ``
of the month and year recorded here (see `MonthMarker.label` and
`MonthMarker.fullLabel`); `weekIndex` is `floor(daysSinceBirth / 7)`. -/
structure MonthMarker where
  weekIndex : Nat
  month : Nat
  year : Int
  isFirstOfYear : Bool
  isBirthMonth : Bool
deriving DecidableEq, Repr

/-- The marker's `label` field: `MONTH_NAMES[currentMonth]`. -/
def MonthMarker.label (m : MonthMarker) : String :=
  MONTH_NAMES.getD m.month ""

/-- The marker's `fullLabel` field:
`` `${MONTH_NAMES[currentMonth]} ${currentYear}` ``. -/
def MonthMarker.fullLabel (m : MonthMarker) : String :=
  MONTH_NAMES.getD m.month "" ++ " " ++ toString m.year

/-- The `shouldShowMonth` helper of `calculateMonthMarkers`
(src/main.ts:606): January always shows; otherwise the frequency decides
(quarters are Jan/Apr/Jul/Oct, half-years Jan/Jul, `"year"` January
only; any other string shows every month). -/
def shouldShowMonth (frequency : String) (monthNum : Nat) : Bool :=
  if monthNum = 0 then true
  else
    match frequency with
    | "all" => true
    | "quarter" => monthNum % 3 == 0
    | "half-year" => monthNum % 6 == 0
    | "year" => monthNum == 0
    | _ => true

/-- The day-by-day while loop of `calculateMonthMarkers`
(src/main.ts:628): on each day strictly before the end date, push one
marker if the day's month differs from the last shown month/year and
passes the frequency filter.  The date advances by exactly one day per
iteration, so `(endT - startT).toNat` iterations reproduce the loop
exactly; `fuel` is that count. -/
def markerLoop (frequency : String) (birthday : CivilDate) :
    Nat → CivilDate → Nat → Int → Int → List MonthMarker → List MonthMarker
  | 0, _, _, _, _, markers => markers
  | fuel + 1, currentDate, daysSinceBirth, lastShownMonth, lastShownYear, markers =>
    let currentMonth := currentDate.month
    let currentYear := currentDate.year
    if ((currentMonth : Int) ≠ lastShownMonth ∨ currentYear ≠ lastShownYear) ∧
        shouldShowMonth frequency currentMonth = true then
      let marker : MonthMarker :=
        { weekIndex := daysSinceBirth / 7
          month := currentMonth
          year := currentYear
          isFirstOfYear := currentMonth = 0
          isBirthMonth := currentMonth = birthday.month ∧ currentYear = birthday.year }
      markerLoop frequency birthday fuel (nextDay currentDate) (daysSinceBirth + 1)
        (currentMonth : Int) currentYear (markers ++ [marker])
    else
      markerLoop frequency birthday fuel (nextDay currentDate) (daysSinceBirth + 1)
        lastShownMonth lastShownYear markers

/-- `calculateMonthMarkers` (src/main.ts:560): iterate from the birthday
to the birthday shifted `totalYears` years ahead (exclusive), collect
the month markers, then sort them by `weekIndex` (the source's
`sort((a, b) => a.weekIndex - b.weekIndex)`). -/
def calculateMonthMarkers (birthdayDate : CivilDate) (totalYears : Int)
    (frequency : String) : List MonthMarker :=
  let startT := daysFromCivil birthdayDate.year ((birthdayDate.month : Int) + 1) birthdayDate.day
  let endT := daysFromCivil (birthdayDate.year + totalYears) ((birthdayDate.month : Int) + 1) birthdayDate.day
  let monthMarkers :=
    markerLoop frequency birthdayDate (endT - startT).toNat birthdayDate 0 (-1) (-1) []
  monthMarkers.mergeSort fun a b => a.weekIndex ≤ b.weekIndex

/-! ## Theorems -/

/-- Linearity of `daysFromCivil` in the day argument for January: a
`setDate(n)` on January 1 lands `n - 1` days later, whatever `n`. -/
theorem daysFromCivil_jan (y d : Int) :
    daysFromCivil y 1 d = daysFromCivil y 1 1 + (d - 1) := by
  unfold daysFromCivil
  dsimp only
  omega

/-- C1 (amended): the year component of the key returned by
`getWeekKeyFromDate` is the *input* date's own calendar year, not the
year of the date shifted to its ISO week's Thursday, so Dec 31 2024
(which lies in ISO week 1 of 2025) gets the key `2024-W01`, whose year
is still 2024. -/
theorem getWeekKeyFromDate_year_is_input_year :
    (∀ t : Int, (getWeekKeyFromDate t).year = yearOf t) ∧
    getWeekKeyFromDate (daysFromCivil 2024 12 31) = ⟨2024, 1⟩ :=
  ⟨fun _ => rfl, by decide⟩

/-- C1 (counterexample): at Dec 31 2024 the key's year component differs
from the year of the Thursday-shifted date (2024 vs 2025), refuting the
claim that the key's year is the shifted date's year. -/
theorem getWeekKeyFromDate_year_not_shifted_year :
    (getWeekKeyFromDate (daysFromCivil 2024 12 31)).year ≠
      yearOf (isoShiftedThursday (daysFromCivil 2024 12 31)) := by
  decide

/-- C2 (counterexample): for year 2025 and week 1 (a valid ISO week of
2025), the forward round trip through `convertWeekToDate` and
`getWeekKeyFromDate` does not reproduce the key: it yields `2024-W01`
because `convertWeekToDate 2025 1` is Dec 30 2024 and the key's year
component is the date's own calendar year. -/
theorem weekKey_roundTrip_fails_2025_W01 :
    convertWeekToDate 2025 1 = daysFromCivil 2024 12 30 ∧
    getWeekKeyFromDate (convertWeekToDate 2025 1) = ⟨2024, 1⟩ ∧
    getWeekKeyFromDate (convertWeekToDate 2025 1) ≠ ⟨2025, 1⟩ := by
  decide

/-- C2 (amended): the round trip is exact for every `(year, week)` whose
computed Monday and that Monday's Thursday both fall inside calendar
year `year` — in particular the year-boundary keys whose week-1 Monday
spills into the previous December are excluded, and for them the round
trip changes the year component. -/
theorem weekKey_roundTrip_exact (year week : Int)
    (hmonday : yearOf (convertWeekToDate year week) = year)
    (hthursday : yearOf (convertWeekToDate year week + 3) = year) :
    getWeekKeyFromDate (convertWeekToDate year week) = ⟨year, week⟩ := by
  have hm : convertWeekToDate year week =
      daysFromCivil year 1 1 + ((week - 1) * 7 +
        (if (daysFromCivil year 1 1 + 4) % 7 ≤ 4 then
          1 - (daysFromCivil year 1 1 + 4) % 7
        else 8 - (daysFromCivil year 1 1 + 4) % 7)) := by
    simp only [convertWeekToDate, jsGetDay]
  have hdw : jsGetDay (convertWeekToDate year week) = 1 := by
    rw [hm]
    unfold jsGetDay
    split_ifs <;> omega
  have hshift : isoShiftedThursday (convertWeekToDate year week) =
      convertWeekToDate year week + 3 := by
    unfold isoShiftedThursday
    rw [hdw]
    omega
  unfold getWeekKeyFromDate
  refine congrArg₂ WeekKey.mk hmonday ?_
  unfold getISOWeekNumber
  dsimp only
  rw [hshift, hthursday]
  conv_lhs => rw [hm]
  split_ifs <;> omega

/-- C2 (witness): the round trip is exact at `2024-W02`. -/
theorem weekKey_roundTrip_exact_witness :
    yearOf (convertWeekToDate 2024 2) = 2024 ∧
    yearOf (convertWeekToDate 2024 2 + 3) = 2024 ∧
    getWeekKeyFromDate (convertWeekToDate 2024 2) = ⟨2024, 2⟩ :=
  ⟨by decide, by decide, weekKey_roundTrip_exact 2024 2 (by decide) (by decide)⟩

/-- C3: `getWeekKeysBetweenDates` is not symmetric in its arguments.  The
source copies `startDate` into `currentDate` *before* swapping the two
variables into order, so when the arguments arrive reversed the walk
starts at the larger date, the loop exits at once, and the result is the
single week key of the larger date — the smaller date's key (the spec's
"start's week key") is missing entirely.  With start = Jan 15 2024 and
end = Jan 1 2024 the call returns only `2024-W03`, while the ordered
call returns `2024-W01, 2024-W02, 2024-W03`. -/
theorem getWeekKeysBetweenDates_not_symmetric :
    getWeekKeysBetweenDates (daysFromCivil 2024 1 15) (daysFromCivil 2024 1 1) =
      [⟨2024, 3⟩] ∧
    getWeekKeysBetweenDates (daysFromCivil 2024 1 1) (daysFromCivil 2024 1 15) =
      [⟨2024, 1⟩, ⟨2024, 2⟩, ⟨2024, 3⟩] ∧
    getWeekKeysBetweenDates (daysFromCivil 2024 1 15) (daysFromCivil 2024 1 1) ≠
      getWeekKeysBetweenDates (daysFromCivil 2024 1 1) (daysFromCivil 2024 1 15) ∧
    getWeekKeyFromDate (daysFromCivil 2024 1 1) ∉
      getWeekKeysBetweenDates (daysFromCivil 2024 1 15) (daysFromCivil 2024 1 1) := by
  decide

/-- C8 (counterexample): for `2021-W01` (Jan 1 2021 is a Friday, ISO
weekday 5), `getWeekDateRange` starts the range at Dec 28 2020 — the
Monday of the week containing Jan 1 — while `convertWeekToDate`, the ISO
day-of-week-corrected formula, returns Jan 4 2021. -/
theorem getWeekDateRange_first_differs_2021_W01 :
    (getWeekDateRange 2021 1).1 = daysFromCivil 2020 12 28 ∧
    convertWeekToDate 2021 1 = daysFromCivil 2021 1 4 ∧
    (getWeekDateRange 2021 1).1 ≠ convertWeekToDate 2021 1 := by
  decide

/-- C8 (amended): the first day of `getWeekDateRange` is always
`Jan 1 + (week-1)*7 + (1 - isoWeekdayOfJan1)` — the Monday of the week
*containing* January 1, offset `week - 1` weeks — which agrees with
`convertWeekToDate`'s ISO-corrected Monday exactly when the ISO weekday
of January 1 is ≤ 4, and is 7 days (one week) earlier otherwise; the
last day of the range is always 6 days after the first. -/
theorem getWeekDateRange_first_last (year week : Int) :
    (getWeekDateRange year week).1 =
      daysFromCivil year 1 1 + (week - 1) * 7 +
        (1 - (if jsGetDay (daysFromCivil year 1 1) = 0 then 7
              else jsGetDay (daysFromCivil year 1 1))) ∧
    (getWeekDateRange year week).2 = (getWeekDateRange year week).1 + 6 ∧
    (getWeekDateRange year week).1 - convertWeekToDate year week =
      (if (if jsGetDay (daysFromCivil year 1 1) = 0 then 7
           else jsGetDay (daysFromCivil year 1 1)) ≤ 4 then 0 else -7) := by
  unfold getWeekDateRange convertWeekToDate
  dsimp only
  rw [daysFromCivil_jan]
  unfold jsGetDay
  split_ifs <;> refine ⟨by omega, by omega, by omega⟩

/-- C6: `checkAndAutoFill` returns `false` and leaves the settings
untouched when auto-fill is disabled, when the weekday of `now` differs
from the configured `autoFillDay`, or when the current week's key is
already in `filledWeeks`; otherwise it appends the key and returns
`true`.  Consequently, on a qualifying day the key's multiplicity after
the call is exactly 1, and an immediately repeated call returns `false`
without changing the settings again. -/
theorem checkAndAutoFill_spec (s : AutoFillSettings) (now : Int) :
    (s.enableAutoFill = false → checkAndAutoFill s now = (false, s)) ∧
    (jsGetDay now ≠ s.autoFillDay → checkAndAutoFill s now = (false, s)) ∧
    (getWeekKeyFromDate now ∈ s.filledWeeks → checkAndAutoFill s now = (false, s)) ∧
    (s.enableAutoFill = true → jsGetDay now = s.autoFillDay →
      getWeekKeyFromDate now ∉ s.filledWeeks →
      checkAndAutoFill s now =
        (true, { s with filledWeeks := s.filledWeeks ++ [getWeekKeyFromDate now] }) ∧
      (checkAndAutoFill s now).2.filledWeeks.count (getWeekKeyFromDate now) = 1 ∧
      checkAndAutoFill (checkAndAutoFill s now).2 now =
        (false, (checkAndAutoFill s now).2)) := by
  refine ⟨fun h => ?_, fun h => ?_, fun h => ?_, fun he hd hm => ?_⟩
  · simp [checkAndAutoFill, h]
  · cases he : s.enableAutoFill <;> simp [checkAndAutoFill, he, h]
  · cases he : s.enableAutoFill <;>
      rcases eq_or_ne (jsGetDay now) s.autoFillDay with hd | hd <;>
      simp [checkAndAutoFill, he, hd, h]
  · have h1 : checkAndAutoFill s now =
        (true, { s with filledWeeks := s.filledWeeks ++ [getWeekKeyFromDate now] }) := by
      simp [checkAndAutoFill, he, hd, hm]
    refine ⟨h1, ?_, ?_⟩
    · rw [h1]
      simp [List.count_append, List.count_eq_zero.mpr hm]
    · rw [h1]
      simp [checkAndAutoFill, he, hd]

/-- C6 (witness): on Monday Jan 1 2024 with auto-fill enabled,
`autoFillDay = 1` and no filled weeks, the first call fills the week. -/
theorem checkAndAutoFill_spec_witness :
    (⟨true, 1, []⟩ : AutoFillSettings).enableAutoFill = true ∧
    jsGetDay (daysFromCivil 2024 1 1) = 1 ∧
    getWeekKeyFromDate (daysFromCivil 2024 1 1) ∉ ([] : List WeekKey) ∧
    checkAndAutoFill ⟨true, 1, []⟩ (daysFromCivil 2024 1 1) =
      (true, ⟨true, 1, [getWeekKeyFromDate (daysFromCivil 2024 1 1)]⟩) :=
  ⟨rfl, by decide, by simp,
    ((checkAndAutoFill_spec ⟨true, 1, []⟩ (daysFromCivil 2024 1 1)).2.2.2 rfl
      (by decide) (by simp)).1⟩

/-- C10: starting inside `[0.1, 3.0]`, `zoomIn` and `zoomOut` keep the
zoom level inside `[0.1, 3.0]`, and `fitToScreen` clamps any computed
ratio into `[0.1, 3.0]`. -/
theorem zoom_level_stays_bounded (z : ℚ) (h1 : 1 / 10 ≤ z) (h2 : z ≤ 3) :
    (1 / 10 ≤ zoomIn z ∧ zoomIn z ≤ 3) ∧
    (1 / 10 ≤ zoomOut z ∧ zoomOut z ≤ 3) ∧
    ∀ zoomRatio : ℚ,
      1 / 10 ≤ fitToScreenZoom zoomRatio ∧ fitToScreenZoom zoomRatio ≤ 3 := by
  unfold zoomIn zoomOut fitToScreenZoom
  refine ⟨⟨le_min (by norm_num) (by linarith), min_le_left 3 _⟩,
    ⟨le_max_left _ _, max_le (by norm_num) (by linarith)⟩,
    fun r => ⟨le_max_left _ _, max_le (by norm_num) (min_le_left 3 _)⟩⟩

/-- C10 (witness): the bounds hold starting from zoom level 1. -/
theorem zoom_level_stays_bounded_witness :
    (1 / 10 : ℚ) ≤ 1 ∧ (1 : ℚ) ≤ 3 ∧
    (1 / 10 ≤ zoomIn 1 ∧ zoomIn 1 ≤ 3) ∧
    (1 / 10 ≤ zoomOut 1 ∧ zoomOut 1 ≤ 3) :=
  ⟨by norm_num, by norm_num,
    (zoom_level_stays_bounded 1 (by norm_num) (by norm_num)).1,
    (zoom_level_stays_bounded 1 (by norm_num) (by norm_num)).2.1⟩

/-- C4 (counterexample): renaming the custom category `Trips` to
`Travel` — a built-in category name — is *not* rejected: the duplicate
check only scans `customEventTypes`, so the handler succeeds, moves the
event collection and rewrites the category record. -/
theorem saveEditedType_builtin_name_accepted :
    "Travel".toList ∈ builtInTypeNames ∧
    saveEditedType
        ⟨[⟨"Trips".toList, "#111111".toList⟩],
          [("Trips".toList, ["2024-W02:Fun".toList])]⟩
        "Trips".toList "Travel".toList "#111111".toList =
      (true,
        ⟨[⟨"Travel".toList, "#111111".toList⟩],
          [("Travel".toList, ["2024-W02:Fun".toList])]⟩) ∧
    (⟨[⟨"Travel".toList, "#111111".toList⟩],
        [("Travel".toList, ["2024-W02:Fun".toList])]⟩ : EventTypesState) ≠
      ⟨[⟨"Trips".toList, "#111111".toList⟩],
        [("Trips".toList, ["2024-W02:Fun".toList])]⟩ := by
  decide

/-- C4 (amended): renaming a custom category to a name that collides
with *another custom* category is rejected, and the failed rename leaves
the category list and every event collection unchanged; collisions with
built-in names are not checked. -/
theorem saveEditedType_duplicate_custom_rejected (st : EventTypesState)
    (oldName newName newColor : List Char) (hne : newName ≠ oldName)
    (hdup : ∃ t ∈ st.customEventTypes, t.name = newName) :
    saveEditedType st oldName newName newColor = (false, st) := by
  obtain ⟨t, ht, hname⟩ := hdup
  have hany : st.customEventTypes.any (fun t => t.name == newName) = true :=
    List.any_eq_true.mpr ⟨t, ht, by simp [hname]⟩
  unfold saveEditedType
  rcases eq_or_ne newName [] with h0 | h0
  · simp [h0]
  · simp [h0, hne, hany]

/-- C4 (witness): renaming custom category `A` to the other custom
category's name `B` is rejected with no state change. -/
theorem saveEditedType_duplicate_custom_rejected_witness :
    ("B".toList ≠ "A".toList) ∧
    (∃ t ∈ [(⟨"A".toList, "#123456".toList⟩ : CustomEventType),
        ⟨"B".toList, "#654321".toList⟩], t.name = "B".toList) ∧
    saveEditedType
        ⟨[⟨"A".toList, "#123456".toList⟩, ⟨"B".toList, "#654321".toList⟩], []⟩
        "A".toList "B".toList "#000000".toList =
      (false,
        ⟨[⟨"A".toList, "#123456".toList⟩, ⟨"B".toList, "#654321".toList⟩], []⟩) :=
  ⟨by decide, ⟨⟨"B".toList, "#654321".toList⟩, by simp, rfl⟩,
    saveEditedType_duplicate_custom_rejected _ _ _ _ (by decide)
      ⟨⟨"B".toList, "#654321".toList⟩, by simp, rfl⟩⟩

/-- C7: a range record matches a cell exactly when the cell's
`(year, week)` lies in the inclusive lexicographic interval between the
record's start and end keys; in particular the record
`2024-W01:2024-W03:Trip` matches the cell `2024-W02` (producing the
Travel-category styling with the record's description) and does not
match `2024-W04`. -/
theorem rangeEvent_inclusive_interval :
    (∀ cellYear cellWeek startYear startWeek endYear endWeek : Int,
      isInRange cellYear cellWeek startYear startWeek endYear endWeek = true ↔
        ((startYear < cellYear ∨ (startYear = cellYear ∧ startWeek ≤ cellWeek)) ∧
          (cellYear < endYear ∨ (cellYear = endYear ∧ cellWeek ≤ endWeek)))) ∧
    applyEventStyle ["2024-W01:2024-W03:Trip".toList] "#2196F3".toList
        "Travel".toList "2024-W02".toList =
      some ("#2196F3".toList, "Trip (2024-W01 to 2024-W03)".toList) ∧
    applyEventStyle ["2024-W01:2024-W03:Trip".toList] "#2196F3".toList
        "Travel".toList "2024-W04".toList = none := by
  refine ⟨fun cy cw sy sw ey ew => ?_, by decide, by decide⟩
  unfold isInRange
  simp only [Bool.and_eq_true, Bool.or_eq_true, decide_eq_true_eq, beq_iff_eq]
  omega

/-- C7 (witness): the interval test applied at the claim's concrete
numbers: `(2024, 2)` lies between `(2024, 1)` and `(2024, 3)`. -/
theorem rangeEvent_inclusive_interval_witness :
    isInRange 2024 2 2024 1 2024 3 = true :=
  (rangeEvent_inclusive_interval.1 2024 2 2024 1 2024 3).mpr (by omega)

/-- C5 (counterexample): with two custom categories `A` and `B` (stored
in that order) both holding a record for week `2024-W02`, the cell
receives *two* stylings, not one: the custom-category loop ignores
`applyEventStyle`'s return value, so `B`'s write lands after `A`'s and
`B`'s colour — not the first matching category's — ends up as the cell's
background. -/
theorem cellWrites_two_custom_matches :
    (fun sA : EventSettings =>
      cellWrites sA "2024-W02".toList =
        [("#aaaaaa".toList, "a".toList), ("#bbbbbb".toList, "b".toList)] ∧
      (cellWrites sA "2024-W02".toList).length ≠ 1 ∧
      (cellWrites sA "2024-W02".toList).getLast? ≠
        some ("#aaaaaa".toList, "a".toList))
      ⟨[], [], [], [],
        [⟨"A".toList, "#aaaaaa".toList⟩, ⟨"B".toList, "#bbbbbb".toList⟩],
        [("A".toList, ["2024-W02:a".toList]),
          ("B".toList, ["2024-W02:b".toList])]⟩ := by
  decide

/-- C5 (amended): the categories are probed in the fixed order Major
Life (green), Travel (blue), Relationship (pink), Education/Career
(purple), then the custom categories in stored order.  Among the
built-in categories the first match wins and is the only styling
applied, and the custom categories are only probed when no built-in
matched; but *every* matching custom category contributes its styling,
in stored order, so with several custom matches the last one's
background colour wins rather than the first's. -/
theorem cellWrites_precedence (s : EventSettings) (weekKey : List Char) :
    (∀ w, applyEventStyle s.greenEvents "#4CAF50".toList "Major Life Event".toList weekKey = some w →
      cellWrites s weekKey = [w]) ∧
    (applyEventStyle s.greenEvents "#4CAF50".toList "Major Life Event".toList weekKey = none →
      ∀ w, applyEventStyle s.blueEvents "#2196F3".toList "Travel".toList weekKey = some w →
      cellWrites s weekKey = [w]) ∧
    (applyEventStyle s.greenEvents "#4CAF50".toList "Major Life Event".toList weekKey = none →
      applyEventStyle s.blueEvents "#2196F3".toList "Travel".toList weekKey = none →
      ∀ w, applyEventStyle s.pinkEvents "#E91E63".toList "Relationship".toList weekKey = some w →
      cellWrites s weekKey = [w]) ∧
    (applyEventStyle s.greenEvents "#4CAF50".toList "Major Life Event".toList weekKey = none →
      applyEventStyle s.blueEvents "#2196F3".toList "Travel".toList weekKey = none →
      applyEventStyle s.pinkEvents "#E91E63".toList "Relationship".toList weekKey = none →
      ∀ w, applyEventStyle s.purpleEvents "#9C27B0".toList "Education/Career".toList weekKey = some w →
      cellWrites s weekKey = [w]) ∧
    (applyEventStyle s.greenEvents "#4CAF50".toList "Major Life Event".toList weekKey = none →
      applyEventStyle s.blueEvents "#2196F3".toList "Travel".toList weekKey = none →
      applyEventStyle s.pinkEvents "#E91E63".toList "Relationship".toList weekKey = none →
      applyEventStyle s.purpleEvents "#9C27B0".toList "Education/Career".toList weekKey = none →
      ∀ entry ∈ s.customEvents, ∀ customType,
        s.customEventTypes.find? (fun t => t.name == entry.1) = some customType →
        entry.2 ≠ [] →
        ∀ w, applyEventStyle entry.2 customType.color entry.1 weekKey = some w →
        w ∈ cellWrites s weekKey) := by
  refine ⟨fun w hg => ?_, fun hg w hb => ?_, fun hg hb w hp => ?_,
    fun hg hb hp w hpu => ?_, fun hg hb hp hpu entry hentry ct hct hne w hw => ?_⟩
  · unfold cellWrites
    rw [hg]
  · unfold cellWrites
    rw [hg, hb]
  · unfold cellWrites
    rw [hg, hb, hp]
  · unfold cellWrites
    rw [hg, hb, hp, hpu]
  · unfold cellWrites
    rw [hg, hb, hp, hpu]
    exact List.mem_flatMap.mpr ⟨entry, hentry, by rw [hct]; simp [hne, hw]⟩

/-- C5 (witness): with a single green (Major Life) record matching the
cell, that category's styling is the one applied. -/
theorem cellWrites_precedence_witness :
    applyEventStyle ["2024-W02:Party".toList] "#4CAF50".toList
        "Major Life Event".toList "2024-W02".toList =
      some ("#4CAF50".toList, "Party".toList) ∧
    cellWrites ⟨["2024-W02:Party".toList], [], [], [], [], []⟩ "2024-W02".toList =
      [("#4CAF50".toList, "Party".toList)] :=
  ⟨by decide,
    (cellWrites_precedence ⟨["2024-W02:Party".toList], [], [], [], [], []⟩
      "2024-W02".toList).1 _ (by decide)⟩

/-! ### Support for the month-marker theorem -/

/-- The `(year, month)` a marker was recorded at, with the month cast to
`Int` for comparison with the loop's `-1` sentinels. -/
def markerPair (mk : MonthMarker) : Int × Int := (mk.year, (mk.month : Int))

/-- The `(year, month)` of the walking date. -/
def curPair (c : CivilDate) : Int × Int := (c.year, (c.month : Int))

/-- Strict lexicographic order on `(year, month)` pairs. -/
def pairLt (p q : Int × Int) : Prop := p.1 < q.1 ∨ (p.1 = q.1 ∧ p.2 < q.2)

/-- Reflexive closure of `pairLt`. -/
def pairLe (p q : Int × Int) : Prop := pairLt p q ∨ p = q

theorem pairLt_trans {p q r : Int × Int} (h1 : pairLt p q) (h2 : pairLt q r) :
    pairLt p r := by
  unfold pairLt at *
  rcases p with ⟨a, b⟩; rcases q with ⟨c, d⟩; rcases r with ⟨e, f⟩
  dsimp at *
  omega

theorem pairLe_trans {p q r : Int × Int} (h1 : pairLe p q) (h2 : pairLe q r) :
    pairLe p r := by
  rcases h1 with h1 | rfl
  · rcases h2 with h2 | rfl
    · exact Or.inl (pairLt_trans h1 h2)
    · exact Or.inl h1
  · exact h2

theorem pairLe_lt_trans {p q r : Int × Int} (h1 : pairLe p q) (h2 : pairLt q r) :
    pairLt p r := by
  rcases h1 with h1 | rfl
  · exact pairLt_trans h1 h2
  · exact h2

theorem pairLt_ne {p q : Int × Int} (h : pairLt p q) : p ≠ q := by
  rintro rfl
  unfold pairLt at h
  omega

/-- Walking one day forward never decreases the `(year, month)` pair. -/
theorem nextDay_pair_mono (c : CivilDate) : pairLe (curPair c) (curPair (nextDay c)) := by
  unfold nextDay
  split_ifs with h1 h2
  · exact Or.inr rfl
  · refine Or.inl (Or.inr ⟨rfl, ?_⟩)
    unfold curPair
    push_cast
    omega
  · refine Or.inl (Or.inl ?_)
    unfold curPair
    dsimp
    omega

/-- The loop invariant of `markerLoop`: the accumulated markers carry
strictly increasing `(year, month)` pairs; and either nothing has been
shown yet (the `-1` sentinels) or the last-shown pair is the greatest
recorded pair and is at most the walking date's pair. -/
def loopInv (cur : CivilDate) (lastM lastY : Int) (acc : List MonthMarker) : Prop :=
  List.Pairwise (fun a b => pairLt (markerPair a) (markerPair b)) acc ∧
  ((lastM = -1 ∧ lastY = -1 ∧ acc = []) ∨
    ((lastY, lastM) ∈ acc.map markerPair ∧
      (∀ p ∈ acc.map markerPair, pairLe p (lastY, lastM)) ∧
      pairLe (lastY, lastM) (curPair cur)))

/-- Pushing the current month's marker preserves the invariant (with the
last-shown pair updated to the current pair and the date advanced). -/
theorem loopInv_push {cur : CivilDate} {lastM lastY : Int} {acc : List MonthMarker}
    (inv : loopInv cur lastM lastY acc)
    (hC : (cur.month : Int) ≠ lastM ∨ cur.year ≠ lastY)
    {mk : MonthMarker} (hmk : markerPair mk = curPair cur) :
    loopInv (nextDay cur) (cur.month : Int) cur.year (acc ++ [mk]) := by
  obtain ⟨hpw, hrest⟩ := inv
  have hlt : ∀ a ∈ acc, pairLt (markerPair a) (markerPair mk) := by
    intro a ha
    rcases hrest with ⟨_, _, rfl⟩ | ⟨hmem, hle, hcur⟩
    · cases ha
    · have hlast_lt : pairLt (lastY, lastM) (curPair cur) := by
        rcases hcur with h | h
        · exact h
        · exfalso
          have : lastY = cur.year ∧ lastM = (cur.month : Int) := by
            have h1 := congrArg Prod.fst h
            have h2 := congrArg Prod.snd h
            exact ⟨h1, h2⟩
          rcases hC with hC | hC
          · exact hC this.2.symm
          · exact hC this.1.symm
      have := hle _ (List.mem_map_of_mem markerPair ha)
      rw [hmk]
      exact pairLe_lt_trans this hlast_lt
  constructor
  · rw [List.pairwise_append]
    refine ⟨hpw, List.pairwise_singleton _ _, ?_⟩
    intro a ha b hb
    rw [List.mem_singleton] at hb
    subst hb
    exact hlt a ha
  · refine Or.inr ⟨?_, ?_, ?_⟩
    · rw [List.map_append, List.mem_append]
      right
      rw [List.map_singleton, List.mem_singleton, hmk]
      rfl
    · intro p hp
      rw [List.map_append, List.mem_append] at hp
      rcases hp with hp | hp
      · obtain ⟨a, ha, rfl⟩ := List.mem_map.mp hp
        exact Or.inl (by
          have := hlt a ha
          rw [hmk] at this
          exact this)
      · rw [List.map_singleton, List.mem_singleton] at hp
        subst hp
        rw [hmk]
        exact Or.inr rfl
    · exact nextDay_pair_mono cur

/-- Skipping a day preserves the invariant. -/
theorem loopInv_skip {cur : CivilDate} {lastM lastY : Int} {acc : List MonthMarker}
    (inv : loopInv cur lastM lastY acc) :
    loopInv (nextDay cur) lastM lastY acc := by
  obtain ⟨hpw, hrest⟩ := inv
  refine ⟨hpw, ?_⟩
  rcases hrest with h | ⟨hmem, hle, hcur⟩
  · exact Or.inl h
  · exact Or.inr ⟨hmem, hle, pairLe_trans hcur (nextDay_pair_mono cur)⟩


/-- `markerLoop` only ever appends markers: the accumulator is a prefix
of the result. -/
theorem markerLoop_extendsAcc (freq : String) (birth : CivilDate) (fuel : Nat) :
    ∀ (cur : CivilDate) (days : Nat) (lastM lastY : Int) (acc : List MonthMarker),
    acc <+: markerLoop freq birth fuel cur days lastM lastY acc := by
  induction fuel with
  | zero =>
    intro cur days lastM lastY acc
    simp [markerLoop]
  | succ fuel ih =>
    intro cur days lastM lastY acc
    simp only [markerLoop]
    split_ifs with h
    · exact (List.prefix_append acc _).trans (ih _ _ _ _ _)
    · exact ih _ _ _ _ _

/-- Given the invariant, the markers produced by `markerLoop` carry
strictly increasing `(year, month)` pairs. -/
theorem markerLoop_pairwise (freq : String) (birth : CivilDate) (fuel : Nat) :
    ∀ (cur : CivilDate) (days : Nat) (lastM lastY : Int) (acc : List MonthMarker),
    loopInv cur lastM lastY acc →
    List.Pairwise (fun a b => pairLt (markerPair a) (markerPair b))
      (markerLoop freq birth fuel cur days lastM lastY acc) := by
  induction fuel with
  | zero =>
    intro cur days lastM lastY acc inv
    simpa [markerLoop] using inv.1
  | succ fuel ih =>
    intro cur days lastM lastY acc inv
    simp only [markerLoop]
    split_ifs with h
    · refine ih _ _ _ _ _ (loopInv_push inv h.1 ?_)
      rfl
    · exact ih _ _ _ _ _ (loopInv_skip inv)

/-- Given the invariant, every `(year, month)` pair of a day the loop
still visits whose month passes the frequency filter appears among the
produced markers' pairs. -/
theorem markerLoop_covers (freq : String) (birth : CivilDate) (fuel : Nat) :
    ∀ (cur : CivilDate) (days : Nat) (lastM lastY : Int) (acc : List MonthMarker),
    loopInv cur lastM lastY acc →
    ∀ (y : Int) (m : Nat), shouldShowMonth freq m = true →
    ∀ k : Nat, k < fuel → (nextDay^[k] cur).year = y → (nextDay^[k] cur).month = m →
    (y, (m : Int)) ∈ (markerLoop freq birth fuel cur days lastM lastY acc).map markerPair := by
  induction fuel with
  | zero =>
    intro cur days lastM lastY acc _ y m _ k hk _ _
    exact absurd hk (Nat.not_lt_zero k)
  | succ fuel ih =>
    intro cur days lastM lastY acc inv y m hshow k hk hky hkm
    simp only [markerLoop]
    cases k with
    | zero =>
      simp only [Function.iterate_zero, id_eq] at hky hkm
      subst hky hkm
      split_ifs with h
      · refine (((markerLoop_extendsAcc freq birth fuel _ _ _ _ _).map markerPair).subset) ?_
        simp [markerPair]
      · have hA : ¬((cur.month : Int) ≠ lastM ∨ cur.year ≠ lastY) := fun hA => h ⟨hA, hshow⟩
        push_neg at hA
        rcases inv.2 with ⟨hm1, _, _⟩ | ⟨hmem, _, _⟩
        · exfalso
          have : (0 : Int) ≤ (cur.month : Int) := Int.natCast_nonneg _
          omega
        · refine (((markerLoop_extendsAcc freq birth fuel _ _ _ _ _).map markerPair).subset) ?_
          rw [hA.1, hA.2]
          exact hmem
    | succ k' =>
      have hit : nextDay^[k'] (nextDay cur) = nextDay^[k' + 1] cur :=
        (Function.iterate_succ_apply nextDay k' cur).symm
      split_ifs with h
      · refine ih _ _ _ _ _ (loopInv_push inv h.1 ?_) y m hshow k' (by omega)
          (by rw [hit]; exact hky) (by rw [hit]; exact hkm)
        rfl
      · exact ih _ _ _ _ _ (loopInv_skip inv) y m hshow k' (by omega)
          (by rw [hit]; exact hky) (by rw [hit]; exact hkm)

/-- C9: for every birthday, year span and frequency string, the sequence
returned by `calculateMonthMarkers` is sorted in ascending `weekIndex`
order, and for each qualifying month there is exactly one marker: no two
markers share a `(year, month)`, and every month that passes the
frequency filter and has a day in the displayed range (day `k` of the
walk, `k <` the total day count) gets a marker — in particular January
always passes the filter (first conjunct), so every year whose January
falls inside the displayed range has its January marker (month 0, whose
`label` renders as `"Jan"`), whatever the frequency. -/
theorem calculateMonthMarkers_spec (birthdayDate : CivilDate) (totalYears : Int)
    (frequency : String) :
    (∀ f : String, shouldShowMonth f 0 = true) ∧
    List.Pairwise (fun a b : MonthMarker => a.weekIndex ≤ b.weekIndex)
      (calculateMonthMarkers birthdayDate totalYears frequency) ∧
    ((calculateMonthMarkers birthdayDate totalYears frequency).map
      (fun mk => (mk.year, mk.month))).Nodup ∧
    (∀ mk : MonthMarker, mk.month = 0 → mk.label = "Jan") ∧
    ∀ (y : Int) (m : Nat), shouldShowMonth frequency m = true →
      (∃ k : Nat,
        (k : Int) <
          daysFromCivil (birthdayDate.year + totalYears)
              ((birthdayDate.month : Int) + 1) birthdayDate.day -
            daysFromCivil birthdayDate.year ((birthdayDate.month : Int) + 1)
              birthdayDate.day ∧
        (nextDay^[k] birthdayDate).year = y ∧
        (nextDay^[k] birthdayDate).month = m) →
      ∃ mk ∈ calculateMonthMarkers birthdayDate totalYears frequency,
        mk.year = y ∧ mk.month = m := by
  have hinv : loopInv birthdayDate (-1) (-1) [] :=
    ⟨List.Pairwise.nil, Or.inl ⟨rfl, rfl, rfl⟩⟩
  have hms : calculateMonthMarkers birthdayDate totalYears frequency =
      (markerLoop frequency birthdayDate
        ((daysFromCivil (birthdayDate.year + totalYears)
            ((birthdayDate.month : Int) + 1) birthdayDate.day -
          daysFromCivil birthdayDate.year ((birthdayDate.month : Int) + 1)
            birthdayDate.day).toNat)
        birthdayDate 0 (-1) (-1) []).mergeSort
        (fun a b => decide (a.weekIndex ≤ b.weekIndex)) := rfl
  have hpw := markerLoop_pairwise frequency birthdayDate
    ((daysFromCivil (birthdayDate.year + totalYears)
        ((birthdayDate.month : Int) + 1) birthdayDate.day -
      daysFromCivil birthdayDate.year ((birthdayDate.month : Int) + 1)
        birthdayDate.day).toNat)
    birthdayDate 0 (-1) (-1) [] hinv
  refine ⟨fun f => by simp [shouldShowMonth], ?_, ?_, ?_, ?_⟩
  · have htrans : ∀ a b c : MonthMarker,
        decide (a.weekIndex ≤ b.weekIndex) = true →
        decide (b.weekIndex ≤ c.weekIndex) = true →
        decide (a.weekIndex ≤ c.weekIndex) = true := by
      intro a b c hab hbc
      simp only [decide_eq_true_eq] at *
      omega
    have htotal : ∀ a b : MonthMarker,
        (decide (a.weekIndex ≤ b.weekIndex) || decide (b.weekIndex ≤ a.weekIndex)) = true := by
      intro a b
      simp [Nat.le_total]
    rw [hms]
    exact (List.sorted_mergeSort htrans htotal _).imp fun h => of_decide_eq_true h
  · have hnodupL : ((markerLoop frequency birthdayDate
        ((daysFromCivil (birthdayDate.year + totalYears)
            ((birthdayDate.month : Int) + 1) birthdayDate.day -
          daysFromCivil birthdayDate.year ((birthdayDate.month : Int) + 1)
            birthdayDate.day).toNat)
        birthdayDate 0 (-1) (-1) []).map (fun mk => (mk.year, mk.month))).Nodup := by
      refine List.Pairwise.map _ ?_ hpw
      intro a b hab heq
      have h1 : a.year = b.year := (Prod.mk.injEq _ _ _ _).mp heq |>.1
      have h2 : a.month = b.month := (Prod.mk.injEq _ _ _ _).mp heq |>.2
      exact pairLt_ne hab (by unfold markerPair; rw [h1, h2])
    rw [hms]
    exact ((List.mergeSort_perm _ _).map _).nodup_iff.mpr hnodupL
  · intro mk h
    unfold MonthMarker.label
    rw [h]
    rfl
  · intro y m hshow ⟨k, hk, hky, hkm⟩
    have hkF : k < ((daysFromCivil (birthdayDate.year + totalYears)
        ((birthdayDate.month : Int) + 1) birthdayDate.day -
      daysFromCivil birthdayDate.year ((birthdayDate.month : Int) + 1)
        birthdayDate.day).toNat) := by omega
    have hmemmap := markerLoop_covers frequency birthdayDate _
      birthdayDate 0 (-1) (-1) [] hinv y m hshow k hkF hky hkm
    obtain ⟨mk, hmkL, hpair⟩ := List.mem_map.mp hmemmap
    have h1 : mk.year = y := congrArg Prod.fst hpair
    have h2 : mk.month = m := Int.natCast_inj.mp (congrArg Prod.snd hpair)
    exact ⟨mk, by rw [hms]; exact List.mem_mergeSort.mpr hmkL, h1, h2⟩

set_option maxRecDepth 40000 in
/-- C9 (witness): with birthday Jul 18 1990, one year displayed and
frequency `"year"`, Jan 1 1991 is day 167 of the walk, and the marker
list contains the January 1991 marker. -/
theorem calculateMonthMarkers_spec_witness :
    shouldShowMonth "year" 0 = true ∧
    (nextDay^[167] (⟨1990, 6, 18⟩ : CivilDate)).year = 1991 ∧
    (nextDay^[167] (⟨1990, 6, 18⟩ : CivilDate)).month = 0 ∧
    ∃ mk ∈ calculateMonthMarkers ⟨1990, 6, 18⟩ 1 "year",
      mk.year = 1991 ∧ mk.month = 0 :=
  ⟨by decide, by decide, by decide,
    (calculateMonthMarkers_spec ⟨1990, 6, 18⟩ 1 "year").2.2.2.2 1991 0 (by decide)
      ⟨167, by decide, by decide, by decide⟩⟩
